import Mathlib

/-!
# Dataset Aggregator — shallow embedding of `src/lib/dataLoader.ts`

This file embeds the client-side dataset-aggregation module of the
campaign-insight-accelerator repository and proves properties of its
query operations.

Modelling conventions:
* JS numbers (`roi`, `engagement_rate`, `reach`, sensor values) are `ℚ`.
* Dates and timestamps are `Int` day numbers / tick counts; `new Date(s)`
  comparisons and the `date.split('T')[0]` grouping key coincide at this
  granularity.
* `Math.random()` outcomes are inputs: a draw stream for `getSensorStatus`
  and three explicit draws for `getDashboardSummary`.
* The session cache is explicit state.  JS `Array.prototype.sort` mutates
  the array in place, so `getLatestCampaigns` returns the updated cache
  alongside its result; every other operation only builds fresh arrays
  (`filter`/`map`/`slice`/`reduce`) and is a pure function of the cache.
* The record types come from `mockData.ts` (imported by the loader but not
  part of the aggregator source); their fields are taken from the fields
  the loader reads, matching the data-model table of the specification.
-/

/-- A marketing campaign record (fields read by the aggregator). -/
structure Campaign where
  campaign_id : String
  brand : String
  status : String
  start_date : Int
  end_date : Int
  created_at : Int
  deriving Repr, DecidableEq

/-- A daily performance-metric record (fields read by the aggregator). -/
structure PerformanceMetric where
  campaign_id : String
  date : Int
  roi : ℚ
  engagement_rate : ℚ
  reach : ℚ
  deriving Repr, DecidableEq

/-- A creative-asset record; the aggregator only counts these. -/
structure CreativeAsset where
  asset_id : String
  campaign_id : String
  deriving Repr, DecidableEq

/-- A sensor reading (pipeline-health time series). -/
structure SensorData where
  sensor_type : String
  timestamp : Int
  value : ℚ
  status : String
  deriving Repr, DecidableEq

/-- An ML-model performance record; the aggregator keeps the latest per type. -/
structure ModelPerformance where
  model_type : String
  date : Int
  deriving Repr, DecidableEq

/-- The session cache `dataCache`; every collection is absent until loaded. -/
structure DataCache where
  campaigns : Option (List Campaign) := none
  metrics : Option (List PerformanceMetric) := none
  assets : Option (List CreativeAsset) := none
  sensors : Option (List SensorData) := none
  models : Option (List ModelPerformance) := none
  deriving Repr, DecidableEq

/-- The never-loaded cache (`let dataCache = {}`). -/
def emptyCache : DataCache := {}

/-! ## JavaScript semantics helpers -/

/-- `Math.round`: round half towards positive infinity. -/
def jsRound (x : ℚ) : Int := Int.floor (x + 1/2)

/-- `arr.slice(0, e)` for a possibly negative end index `e`. -/
def jsSliceTo (l : List α) (e : Int) : List α :=
  if e < 0 then l.take ((l.length : Int) + e).toNat else l.take e.toNat

/-- `arr.slice(-n)`: the last `n` elements (the whole array when shorter). -/
def jsSliceLast (l : List α) (n : Nat) : List α := l.drop (l.length - n)

/-- Insert `a` in front of the first element `b` with `le a b`. -/
def insertSorted (le : α → α → Bool) (a : α) : List α → List α
  | [] => [a]
  | b :: l => if le a b then a :: b :: l else b :: insertSorted le a l

/-- Stable comparator sort (the observable behaviour of `Array.prototype.sort`
with a consistent comparator on a modern engine). -/
def sortStable (le : α → α → Bool) : List α → List α
  | [] => []
  | a :: l => insertSorted le a (sortStable le l)

/-- Sum of a rational-valued field over a list (`reduce((s, m) => s + f m, 0)`). -/
def sumBy (f : α → ℚ) (l : List α) : ℚ := (l.map f).sum

/-! ## Association lists

JS plain objects used as string-keyed dictionaries: lookup, in-place value
update, and `Object.values` insertion order (new keys are appended). -/

/-- Dictionary lookup `obj[k]`. -/
def lookupA {β : Type} : List (String × β) → String → Option β
  | [], _ => none
  | (k', v) :: l, k => if k' = k then some v else lookupA l k

/-- Dictionary update `obj[k] = v` for a key already present. -/
def updateA {β : Type} : List (String × β) → String → β → List (String × β)
  | [], _, _ => []
  | (k', v') :: l, k, v => if k' = k then (k', v) :: l else (k', v') :: updateA l k v

/-! ## The query operations -/

/-- `getLatestCampaigns(limit = 10)`.  The in-place `.sort` reorders the cached
array itself, so the (result, updated cache) pair is returned. -/
def getLatestCampaigns (cache : DataCache) (limit : Int := 10) :
    List Campaign × DataCache :=
  match cache.campaigns with
  | none => ([], cache)
  | some cs =>
      let sorted := sortStable (fun a b => decide (b.created_at ≤ a.created_at)) cs
      (jsSliceTo sorted limit, { cache with campaigns := some sorted })

/-- `getCampaignMetrics(campaignId)`. -/
def getCampaignMetrics (cache : DataCache) (campaignId : String) :
    List PerformanceMetric :=
  match cache.metrics with
  | none => []
  | some ms =>
      sortStable (fun a b => decide (a.date ≤ b.date))
        (ms.filter (fun m => m.campaign_id = campaignId))

/-- `getActiveCampaigns()`; `new Date()` is the injected `now`. -/
def getActiveCampaigns (cache : DataCache) (now : Int) : List Campaign :=
  match cache.campaigns with
  | none => []
  | some cs =>
      cs.filter (fun c =>
        c.status = "Active" ∧ c.start_date ≤ now ∧ now ≤ c.end_date)

/-- Per-brand accumulator record of `getBrandPerformance`. -/
structure BrandStats where
  campaigns : Nat
  avgROI : ℚ
  avgEngagement : ℚ
  totalReach : ℚ
  deriving Repr, DecidableEq

/-- The all-zero initial per-brand record. -/
def BrandStats.zero : BrandStats := ⟨0, 0, 0, 0⟩

/-- The per-campaign metric window: metrics of the campaign, sorted by date
descending, sliced to the 7 most recent rows. -/
def windowMetrics (ms : List PerformanceMetric) (c : Campaign) :
    List PerformanceMetric :=
  (sortStable (fun a b => decide (b.date ≤ a.date))
    (ms.filter (fun m => m.campaign_id = c.campaign_id))).take 7

/-- The loop body acting on one brand record: bump the campaign count, and if
the campaign's window is non-empty overwrite the averages and add the reach. -/
def updateStats (ms : List PerformanceMetric) (c : Campaign) (st : BrandStats) :
    BrandStats :=
  let cm := windowMetrics ms c
  let st' := { st with campaigns := st.campaigns + 1 }
  if cm.length > 0 then
    { st' with
      avgROI := sumBy (·.roi) cm / cm.length
      avgEngagement := sumBy (·.engagement_rate) cm / cm.length
      totalReach := st'.totalReach + sumBy (·.reach) cm }
  else st'

/-- One iteration of the `forEach` over campaigns in `getBrandPerformance`. -/
def brandStep (ms : List PerformanceMetric) (acc : List (String × BrandStats))
    (c : Campaign) : List (String × BrandStats) :=
  match lookupA acc c.brand with
  | some st => updateA acc c.brand (updateStats ms c st)
  | none => acc ++ [(c.brand, updateStats ms c BrandStats.zero)]

/-- One row of the `getBrandPerformance` result. -/
structure BrandEntry where
  brand : String
  campaigns : Nat
  avgROI : ℚ
  avgEngagement : ℚ
  totalReach : ℚ
  deriving Repr, DecidableEq

/-- `getBrandPerformance()`. -/
def getBrandPerformance (cache : DataCache) : List BrandEntry :=
  match cache.campaigns, cache.metrics with
  | some cs, some ms =>
      (cs.foldl (brandStep ms) []).map
        (fun p => ⟨p.1, p.2.campaigns, p.2.avgROI, p.2.avgEngagement, p.2.totalReach⟩)
  | _, _ => []

/-- One entry of the `getSensorStatus` result. -/
structure SensorEntry where
  name : String
  value : ℚ
  status : String
  timestamp : Int
  trend : String
  deriving Repr, DecidableEq

/-- The `forEach` building `latestSensors`: keep the stored reading for a
type unless the new reading's timestamp is strictly greater. -/
def latestStep (acc : List (String × SensorData)) (s : SensorData) :
    List (String × SensorData) :=
  match lookupA acc s.sensor_type with
  | none => acc ++ [(s.sensor_type, s)]
  | some prev =>
      if prev.timestamp < s.timestamp then updateA acc s.sensor_type s else acc

/-- The `latestSensors` dictionary in `Object.values` insertion order. -/
def latestFold (sensors : List SensorData) : List (String × SensorData) :=
  sensors.foldl latestStep []

/-- `s.replace('_', ' ')`: a string-pattern `String.prototype.replace` call
substitutes only the first occurrence. -/
def replaceFirstUnderscore : List Char → List Char
  | [] => []
  | c :: cs => if c = '_' then ' ' :: cs else c :: replaceFirstUnderscore cs

/-- `sensor.sensor_type.replace('_', ' ').toUpperCase()` (`toUpperCase` is
modelled character-wise). -/
def displayName (s : String) : String :=
  ⟨(replaceFirstUnderscore s.data).map Char.toUpper⟩

/-- One entry's random draws: the outcome of `Math.random() > 0.5` and the raw
`Math.random()` value fed to `(Math.random() * 10).toFixed(1)`. -/
def SensorDraws : Type := Nat → Bool × ℚ

/-- `x.toFixed(1)` for `x ≥ 0`, via the rounded count of tenths. -/
def jsToFixed1 (x : ℚ) : String :=
  let n := (jsRound (x * 10)).toNat
  toString (n / 10) ++ "." ++ toString (n % 10)

/-- The trend string: the ternary binds the whole concatenation to the minus
branch, so the plus branch is the bare string `"+"`. -/
def trendString (draw : Bool × ℚ) : String :=
  if draw.1 then "+" else "-" ++ jsToFixed1 (draw.2 * 10) ++ "%"

/-- `getSensorStatus()`; `rand i` supplies the draws of the `i`-th entry. -/
def getSensorStatus (cache : DataCache) (rand : SensorDraws) : List SensorEntry :=
  match cache.sensors with
  | none => []
  | some ss =>
      (latestFold ss).enum.map (fun p =>
        ⟨displayName p.2.2.sensor_type, p.2.2.value, p.2.2.status,
          p.2.2.timestamp, trendString (rand p.1)⟩)

/-- The `forEach` building `latestModels` (strictly later `date` wins). -/
def latestModelStep (acc : List (String × ModelPerformance)) (m : ModelPerformance) :
    List (String × ModelPerformance) :=
  match lookupA acc m.model_type with
  | none => acc ++ [(m.model_type, m)]
  | some prev => if prev.date < m.date then updateA acc m.model_type m else acc

/-- `getModelPerformance()`. -/
def getModelPerformance (cache : DataCache) : List ModelPerformance :=
  match cache.models with
  | none => []
  | some ms => (ms.foldl latestModelStep []).map (·.2)

/-- Per-day accumulator of `getPerformanceTrends`. -/
structure DayStats where
  date : Int
  avgROI : ℚ
  avgEngagement : ℚ
  totalReach : ℚ
  count : Nat
  deriving Repr, DecidableEq

/-- One row of the `getPerformanceTrends` result. -/
structure TrendPoint where
  date : Int
  avgROI : ℚ
  avgEngagement : ℚ
  totalReach : ℚ
  deriving Repr, DecidableEq

/-- `Number(x.toFixed(2))` for the non-negative averages: two-decimal rounding. -/
def jsToFixed2 (x : ℚ) : ℚ := (jsRound (x * 100) : ℚ) / 100

/-- The `forEach` accumulating one metric into its calendar-day bucket; the
day number plays the role of the `date.split('T')[0]` key. -/
def trendStep (acc : List (String × DayStats)) (m : PerformanceMetric) :
    List (String × DayStats) :=
  let key := toString m.date
  let st := (lookupA acc key).getD ⟨m.date, 0, 0, 0, 0⟩
  let st' : DayStats :=
    ⟨st.date, st.avgROI + m.roi, st.avgEngagement + m.engagement_rate,
      st.totalReach + m.reach, st.count + 1⟩
  match lookupA acc key with
  | none => acc ++ [(key, st')]
  | some _ => updateA acc key st'

/-- `getPerformanceTrends(days = 30)`; `new Date()` is the injected `now` and
the cutoff is `now - days` at day granularity. -/
def getPerformanceTrends (cache : DataCache) (now : Int) (days : Int := 30) :
    List TrendPoint :=
  match cache.metrics with
  | none => []
  | some ms =>
      let cutoff := now - days
      let daily := (ms.filter (fun m => cutoff ≤ m.date)).foldl trendStep []
      sortStable (fun a b => decide (a.date ≤ b.date))
        (daily.map (fun p =>
          ⟨p.2.date, jsToFixed2 (p.2.avgROI / p.2.count),
            jsToFixed2 (p.2.avgEngagement / p.2.count), p.2.totalReach⟩))

/-- `Number(x.toFixed(1))` for the non-negative summary averages. -/
def jsToFixed1Q (x : ℚ) : ℚ := (jsRound (x * 10) : ℚ) / 10

/-- The `getDashboardSummary` result record. -/
structure DashboardSummary where
  totalCampaigns : Nat
  activeCampaigns : Nat
  avgROI : ℚ
  avgEngagement : ℚ
  pipelineHealth : Int
  dataFreshness : Int
  modelAccuracy : Int
  systemLatency : Int
  totalRecords : Nat
  deriving Repr, DecidableEq

/-- `getDashboardSummary()`; `now` feeds `getActiveCampaigns`, `rand` feeds
`getSensorStatus`, and `rFresh`/`rAcc`/`rLat` are the three direct
`Math.random()` draws. -/
def getDashboardSummary (cache : DataCache) (now : Int) (rand : SensorDraws)
    (rFresh rAcc rLat : ℚ) : DashboardSummary :=
  let campaigns := cache.campaigns.getD []
  let metrics := cache.metrics.getD []
  let assets := cache.assets.getD []
  let sensors := cache.sensors.getD []
  let recentMetrics := jsSliceLast metrics 1000
  let avgROI :=
    if recentMetrics.length > 0 then
      sumBy (·.roi) recentMetrics / recentMetrics.length
    else 0
  let avgEngagement :=
    if recentMetrics.length > 0 then
      sumBy (·.engagement_rate) recentMetrics / recentMetrics.length
    else 0
  let sensorStatus := getSensorStatus cache rand
  let healthy := (sensorStatus.filter (fun s => s.status = "OK")).length
  let pipelineHealth :=
    if sensorStatus.length > 0 then
      jsRound ((healthy : ℚ) / sensorStatus.length * 100)
    else 100
  { totalCampaigns := campaigns.length
    activeCampaigns := (getActiveCampaigns cache now).length
    avgROI := jsToFixed1Q avgROI
    avgEngagement := jsToFixed1Q avgEngagement
    pipelineHealth := pipelineHealth
    dataFreshness := jsRound (rFresh * 5) + 95
    modelAccuracy := jsRound (rAcc * 10) + 85
    systemLatency := jsRound (rLat * 100) + 100
    totalRecords := campaigns.length + metrics.length + assets.length + sensors.length }

/-- The six parallel fetch outcomes of `loadRealDataset` (`none` = rejection);
the summary blob is consumed opaquely. -/
structure FetchResults where
  campaigns : Option (List Campaign)
  metrics : Option (List PerformanceMetric)
  assets : Option (List CreativeAsset)
  sensors : Option (List SensorData)
  models : Option (List ModelPerformance)
  summary : Option Unit
  deriving Repr, DecidableEq

/-- `loadRealDataset()`: `Promise.all` rejects when any fetch rejects, the
`catch` turns that into the `null` sentinel and leaves the cache untouched;
on success the cache is replaced wholesale. -/
def loadRealDataset (prev : DataCache) (r : FetchResults) :
    Option DataCache × DataCache :=
  match r.campaigns, r.metrics, r.assets, r.sensors, r.models, r.summary with
  | some cs, some ms, some asts, some ss, some mods, some _ =>
      let newCache : DataCache :=
        { campaigns := some cs, metrics := some ms, assets := some asts,
          sensors := some ss, models := some mods }
      (some newCache, newCache)
  | _, _, _, _, _, _ => (none, prev)

/-! ## Specification-side definitions

These follow the wording of the specification (not the source) and are used
to compare the implementation against the spec's claims. -/

/-- Spec reading of `brandPerformance`: the average ROI over the union of the
per-campaign 7-most-recent-row windows of all campaigns of a brand. -/
def unionWindowAvgROI (cs : List Campaign) (ms : List PerformanceMetric)
    (b : String) : ℚ :=
  let pool := (cs.filter (fun c => decide (c.brand = b))).flatMap (windowMetrics ms)
  sumBy (·.roi) pool / pool.length

/-- Spec reading of the sensor display name: every underscore replaced by a
space, then upper-cased. -/
def specNameAll (t : String) : String :=
  ⟨(t.data.map (fun c => if c = '_' then ' ' else c)).map Char.toUpper⟩

/-- The distinct `sensor_type` values of a sensor collection. -/
def distinctTypes (ss : List SensorData) : List String :=
  (ss.map (·.sensor_type)).dedup

/-- Keep the reading with the larger timestamp (first one wins ties). -/
def pickLatest (s : SensorData) (xs : List SensorData) : SensorData :=
  xs.foldl (fun p x => if p.timestamp < x.timestamp then x else p) s

/-- Spec reading of per-type latest selection: among the readings of type `t`,
the one with the maximum timestamp (the earliest such reading on ties). -/
def latestOfType (ss : List SensorData) (t : String) : Option SensorData :=
  match ss.filter (fun s => decide (s.sensor_type = t)) with
  | [] => none
  | x :: xs => some (pickLatest x xs)

/-- Spec reading of "the maximum-timestamp reading of type `t` has status
`"OK"`". -/
def latestOK (ss : List SensorData) (t : String) : Prop :=
  ∃ r ∈ ss, r.sensor_type = t ∧
    (∀ r' ∈ ss, r'.sensor_type = t → r'.timestamp ≤ r.timestamp) ∧
    r.status = "OK"

instance (ss : List SensorData) (t : String) : Decidable (latestOK ss t) := by
  unfold latestOK; infer_instance

/-- Timestamps are unique within each sensor type, so "the maximum-timestamp
reading" of a type is well defined. -/
def UniqueStamps (ss : List SensorData) : Prop :=
  ∀ s ∈ ss, ∀ s' ∈ ss,
    s.sensor_type = s'.sensor_type → s.timestamp = s'.timestamp → s = s'

/-- The per-brand result fields as characterised by the code: the campaign
count of the brand; reach summed over all the brand's windows; averages taken
from the last campaign of the brand (in collection order) whose window is
non-empty, `0` when there is none. -/
def BrandEntrySpec (cs : List Campaign) (ms : List PerformanceMetric)
    (e : BrandEntry) : Prop :=
  let own := cs.filter (fun c => decide (c.brand = e.brand))
  own ≠ [] ∧
  e.campaigns = own.length ∧
  e.totalReach = (own.map (fun c => sumBy (·.reach) (windowMetrics ms c))).sum ∧
  e.avgROI = (match (own.filter (fun c => decide (windowMetrics ms c ≠ []))).getLast? with
    | none => 0
    | some c => sumBy (·.roi) (windowMetrics ms c) / (windowMetrics ms c).length) ∧
  e.avgEngagement = (match (own.filter (fun c => decide (windowMetrics ms c ≠ []))).getLast? with
    | none => 0
    | some c => sumBy (·.engagement_rate) (windowMetrics ms c) / (windowMetrics ms c).length)

/-! ## Generic dictionary-fold machinery

`getBrandPerformance`, `getSensorStatus` and `getModelPerformance` all build a
string-keyed dictionary by folding over a list; the generic step either
updates the existing value of a key or appends a new key. -/

/-- Generic dictionary step: combine into an existing value with `f`, create a
missing one with `g`. -/
def dictStep {σ β : Type} (key : σ → String) (f : σ → β → β) (g : σ → β)
    (acc : List (String × β)) (x : σ) : List (String × β) :=
  match lookupA acc (key x) with
  | some st => updateA acc (key x) (f x st)
  | none => acc ++ [(key x, g x)]

/-- What a dictionary fold does to the value of one fixed key. -/
def dictRun {σ β : Type} (f : σ → β → β) (g : σ → β) :
    Option β → List σ → Option β
  | o, [] => o
  | o, x :: xs =>
      dictRun f g (some (match o with | some st => f x st | none => g x)) xs

/-! ## Concrete instances used by counterexamples and witnesses -/

/-- Brand-`"B"` campaign, created earlier. -/
def cA1 : Campaign := ⟨"c1", "B", "Active", 0, 10, 5⟩

/-- Brand-`"B"` campaign, created later. -/
def cA2 : Campaign := ⟨"c2", "B", "Active", 0, 10, 7⟩

/-- A metric row of campaign `"c1"` with ROI `2`. -/
def mA1 : PerformanceMetric := ⟨"c1", 0, 2, 1, 100⟩

/-- A metric row of campaign `"c2"` with ROI `4`. -/
def mA2 : PerformanceMetric := ⟨"c2", 0, 4, 1, 100⟩

/-- Cache with two brand-`"B"` campaigns, each with one metric row. -/
def cacheExA : DataCache :=
  { campaigns := some [cA1, cA2], metrics := some [mA1, mA2] }

/-- Cache holding a single metric row dated at day `11`. -/
def cacheExD : DataCache := { metrics := some [⟨"c1", 11, 2, 1, 100⟩] }

/-- Cache holding a single sensor whose type has two underscores. -/
def cacheExS : DataCache := { sensors := some [⟨"a_b_c", 1, 5, "OK"⟩] }

/-- Cache holding two readings of one sensor type and one of another. -/
def cacheExT : DataCache :=
  { sensors := some [⟨"lat", 1, 5, "OK"⟩, ⟨"lat", 2, 6, "FAIL"⟩, ⟨"fresh", 3, 1, "OK"⟩] }

/-- A draw stream that always takes the plus branch. -/
def randPlus : SensorDraws := fun _ => (true, 0)

/-- A draw stream that always takes the minus branch with draw `1/2`. -/
def randMinus : SensorDraws := fun _ => (false, 1/2)

/-- A fetch outcome whose metrics fetch rejected. -/
def failedFetch : FetchResults :=
  { campaigns := some [cA1], metrics := none, assets := some [],
    sensors := some [], models := some [], summary := some () }

/-- Campaign of a brand with no matching metrics. -/
def cB1 : Campaign := ⟨"c9", "N", "Active", 0, 10, 3⟩

/-- Cache whose only metric row references no existing campaign. -/
def cacheExN : DataCache :=
  { campaigns := some [cB1], metrics := some [⟨"other", 0, 2, 1, 100⟩] }

/-! ## Sorting lemmas -/

theorem insertSorted_length (le : α → α → Bool) (a : α) (l : List α) :
    (insertSorted le a l).length = l.length + 1 := by
  induction l with
  | nil => rfl
  | cons b l ih =>
      unfold insertSorted
      by_cases h : le a b = true
      · simp [h]
      · simp [h, ih]

theorem sortStable_length (le : α → α → Bool) (l : List α) :
    (sortStable le l).length = l.length := by
  induction l with
  | nil => rfl
  | cons a l ih => simp [sortStable, insertSorted_length, ih]

theorem insertSorted_perm (le : α → α → Bool) (a : α) (l : List α) :
    (insertSorted le a l).Perm (a :: l) := by
  induction l with
  | nil => exact List.Perm.refl _
  | cons b l ih =>
      unfold insertSorted
      by_cases h : le a b = true
      · simp [h]
      · simpa [h] using ((ih.cons b).trans (List.Perm.swap a b l))

theorem sortStable_perm (le : α → α → Bool) (l : List α) :
    (sortStable le l).Perm l := by
  induction l with
  | nil => exact List.Perm.refl _
  | cons a l ih =>
      exact (insertSorted_perm le a (sortStable le l)).trans (ih.cons a)

/-! ## Association-list lemmas -/

theorem lookupA_append_of_eq_none {β : Type} {l : List (String × β)} {k : String}
    (h : lookupA l k = none) (l' : List (String × β)) :
    lookupA (l ++ l') k = lookupA l' k := by
  induction l with
  | nil => rfl
  | cons p l ih =>
      obtain ⟨k', v⟩ := p
      by_cases hk : k' = k
      · simp [lookupA, hk] at h
      · simp only [lookupA, hk, if_neg hk] at h ⊢
        exact ih h

theorem lookupA_append_of_eq_some {β : Type} {l : List (String × β)} {k : String}
    {v : β} (h : lookupA l k = some v) (l' : List (String × β)) :
    lookupA (l ++ l') k = some v := by
  induction l with
  | nil => simp [lookupA] at h
  | cons p l ih =>
      obtain ⟨k', w⟩ := p
      by_cases hk : k' = k
      · simp only [lookupA, if_pos hk] at h ⊢
        exact h
      · simp only [lookupA, if_neg hk] at h ⊢
        exact ih h

theorem lookupA_updateA_ne {β : Type} {l : List (String × β)} {k k' : String}
    (h : k' ≠ k) (v : β) : lookupA (updateA l k v) k' = lookupA l k' := by
  induction l with
  | nil => rfl
  | cons p l ih =>
      obtain ⟨k₀, w⟩ := p
      by_cases hk : k₀ = k
      · subst hk
        simp only [updateA, if_pos rfl, lookupA]
        rw [if_neg, if_neg] <;> exact fun hc => h hc.symm
      · simp only [updateA, if_neg hk, lookupA, ih]

theorem lookupA_updateA_self {β : Type} {l : List (String × β)} {k : String}
    {w : β} (h : lookupA l k = some w) (v : β) :
    lookupA (updateA l k v) k = some v := by
  induction l with
  | nil => simp [lookupA] at h
  | cons p l ih =>
      obtain ⟨k₀, w₀⟩ := p
      by_cases hk : k₀ = k
      · simp [updateA, lookupA, hk]
      · simp only [lookupA, if_neg hk] at h
        simp only [updateA, if_neg hk, lookupA, if_neg hk]
        exact ih h

theorem updateA_self {β : Type} {l : List (String × β)} {k : String} {v : β}
    (h : lookupA l k = some v) : updateA l k v = l := by
  induction l with
  | nil => rfl
  | cons p l ih =>
      obtain ⟨k₀, w₀⟩ := p
      by_cases hk : k₀ = k
      · simp only [lookupA, if_pos hk] at h
        simp only [updateA, if_pos hk, h.symm]
        cases h; rfl
      · simp only [lookupA, if_neg hk] at h
        simp only [updateA, if_neg hk, ih h]

theorem updateA_keys {β : Type} (l : List (String × β)) (k : String) (v : β) :
    (updateA l k v).map Prod.fst = l.map Prod.fst := by
  induction l with
  | nil => rfl
  | cons p l ih =>
      obtain ⟨k₀, w₀⟩ := p
      by_cases hk : k₀ = k
      · simp [updateA, hk]
      · simp [updateA, hk, ih]

theorem lookupA_eq_none_iff {β : Type} {l : List (String × β)} {k : String} :
    lookupA l k = none ↔ k ∉ l.map Prod.fst := by
  induction l with
  | nil => simp [lookupA]
  | cons p l ih =>
      obtain ⟨k₀, w₀⟩ := p
      by_cases hk : k₀ = k
      · simp [lookupA, hk]
      · simp [lookupA, hk, ih, Ne.symm hk]

theorem lookupA_of_mem_nodup {β : Type} {l : List (String × β)} {k : String}
    {v : β} (hn : (l.map Prod.fst).Nodup) (hm : (k, v) ∈ l) :
    lookupA l k = some v := by
  induction l with
  | nil => simp at hm
  | cons p l ih =>
      obtain ⟨k₀, w₀⟩ := p
      simp only [List.map_cons, List.nodup_cons] at hn
      rcases List.mem_cons.1 hm with h | h
      · cases h
        simp [lookupA]
      · have hk : k₀ ≠ k := by
          intro hc; subst hc
          exact hn.1 (List.mem_map.2 ⟨(k₀, v), h, rfl⟩)
        simp only [lookupA, if_neg hk]
        exact ih hn.2 h

/-! ## Dictionary-fold lemmas -/

theorem dictStep_lookupA {σ β : Type} (key : σ → String) (f : σ → β → β)
    (g : σ → β) (acc : List (String × β)) (x : σ) (k : String) :
    lookupA (dictStep key f g acc x) k =
      if key x = k then
        some (match lookupA acc k with | some st => f x st | none => g x)
      else lookupA acc k := by
  unfold dictStep
  by_cases hk : key x = k
  · subst hk
    cases h : lookupA acc (key x) with
    | none => simp [lookupA_append_of_eq_none h, lookupA]
    | some st => simp [lookupA_updateA_self h]
  · cases h : lookupA acc (key x) with
    | none =>
        cases h' : lookupA acc k with
        | none => simp [hk, h', lookupA_append_of_eq_none h', lookupA, Ne.symm hk]
        | some v => simp [hk, h', lookupA_append_of_eq_some h']
    | some st => simp [hk, lookupA_updateA_ne (fun hc => hk hc.symm), h]

theorem dictRun_some {σ β : Type} (f : σ → β → β) (g : σ → β) (p : β)
    (xs : List σ) :
    dictRun f g (some p) xs = some (xs.foldl (fun b x => f x b) p) := by
  induction xs generalizing p with
  | nil => rfl
  | cons x xs ih => simp [dictRun, ih]

theorem foldl_dictStep_lookupA {σ β : Type} (key : σ → String) (f : σ → β → β)
    (g : σ → β) (xs : List σ) (acc : List (String × β)) (k : String) :
    lookupA (xs.foldl (dictStep key f g) acc) k =
      dictRun f g (lookupA acc k) (xs.filter (fun x => decide (key x = k))) := by
  induction xs generalizing acc with
  | nil => rfl
  | cons x xs ih =>
      simp only [List.foldl_cons, List.filter_cons]
      by_cases hk : key x = k
      · simp [hk, ih, dictStep_lookupA, dictRun]
      · simp [hk, ih, dictStep_lookupA]

theorem keys_foldl_dictStep_nodup {σ β : Type} (key : σ → String) (f : σ → β → β)
    (g : σ → β) (xs : List σ) (acc : List (String × β))
    (h : (acc.map Prod.fst).Nodup) :
    (((xs.foldl (dictStep key f g) acc)).map Prod.fst).Nodup := by
  induction xs generalizing acc with
  | nil => exact h
  | cons x xs ih =>
      simp only [List.foldl_cons]
      apply ih
      unfold dictStep
      cases hx : lookupA acc (key x) with
      | none =>
          have hnm : key x ∉ acc.map Prod.fst := lookupA_eq_none_iff.1 hx
          have : ((acc ++ [(key x, g x)]).map Prod.fst).Nodup := by
            rw [List.map_append]
            refine List.Nodup.append h (by simp) ?_
            intro a ha hb
            simp only [List.map_cons, List.map_nil, List.mem_singleton] at hb
            exact hnm (hb ▸ ha)
          exact this
      | some st => simpa [updateA_keys] using h

theorem mem_keys_of_lookupA {β : Type} {l : List (String × β)} {k : String}
    {v : β} (h : lookupA l k = some v) : k ∈ l.map Prod.fst := by
  by_contra hc
  rw [lookupA_eq_none_iff.2 hc] at h
  cases h

theorem mem_keys_foldl_dictStep {σ β : Type} (key : σ → String) (f : σ → β → β)
    (g : σ → β) (xs : List σ) (acc : List (String × β)) (k : String) :
    k ∈ ((xs.foldl (dictStep key f g) acc)).map Prod.fst ↔
      k ∈ acc.map Prod.fst ∨ k ∈ xs.map key := by
  induction xs generalizing acc with
  | nil => simp
  | cons x xs ih =>
      simp only [List.foldl_cons, ih, List.map_cons, List.mem_cons]
      unfold dictStep
      cases hx : lookupA acc (key x) with
      | none =>
          simp only [List.map_append, List.mem_append, List.map_cons,
            List.map_nil, List.mem_singleton]
          constructor
          · rintro (⟨h | h⟩ | h)
            · exact Or.inl h
            · exact Or.inr (Or.inl h)
            · exact Or.inr (Or.inr h)
          · rintro (h | h | h)
            · exact Or.inl (Or.inl h)
            · exact Or.inl (Or.inr h)
            · exact Or.inr h
      | some st =>
          rw [updateA_keys]
          constructor
          · rintro (h | h)
            · exact Or.inl h
            · exact Or.inr (Or.inr h)
          · rintro (h | h | h)
            · exact Or.inl h
            · subst h
              exact Or.inl (mem_keys_of_lookupA hx)
            · exact Or.inr h

/-! ## The two dictionary folds of the aggregator -/

theorem brandStep_eq_dictStep (ms : List PerformanceMetric)
    (acc : List (String × BrandStats)) (c : Campaign) :
    brandStep ms acc c =
      dictStep (fun c => c.brand) (fun c st => updateStats ms c st)
        (fun c => updateStats ms c BrandStats.zero) acc c := by
  unfold brandStep dictStep
  rcases h : lookupA acc c.brand with _ | st <;> simp [h]

theorem latestStep_eq_dictStep (acc : List (String × SensorData)) (s : SensorData) :
    latestStep acc s =
      dictStep (fun s => s.sensor_type)
        (fun s prev => if prev.timestamp < s.timestamp then s else prev)
        (fun s => s) acc s := by
  unfold latestStep dictStep
  cases h : lookupA acc s.sensor_type with
  | none => rfl
  | some prev =>
      by_cases ht : prev.timestamp < s.timestamp
      · simp [ht]
      · simp [ht, updateA_self h]

theorem pickLatest_mem (s : SensorData) (xs : List SensorData) :
    pickLatest s xs ∈ s :: xs := by
  induction xs generalizing s with
  | nil => simp [pickLatest]
  | cons x xs ih =>
      unfold pickLatest
      simp only [List.foldl_cons]
      by_cases h : s.timestamp < x.timestamp
      · simp only [if_pos h]
        have hx : pickLatest x xs ∈ x :: xs := ih x
        exact List.mem_cons.2 (Or.inr hx)
      · simp only [if_neg h]
        have hs : pickLatest s xs ∈ s :: xs := ih s
        rcases List.mem_cons.1 hs with h' | h'
        · exact List.mem_cons.2 (Or.inl h')
        · exact List.mem_cons.2 (Or.inr (List.mem_cons.2 (Or.inr h')))

theorem pickLatest_max (s : SensorData) (xs : List SensorData) :
    ∀ x ∈ s :: xs, x.timestamp ≤ (pickLatest s xs).timestamp := by
  induction xs generalizing s with
  | nil => simp [pickLatest]
  | cons y xs ih =>
      intro x hx
      unfold pickLatest
      simp only [List.foldl_cons]
      rcases List.mem_cons.1 hx with h | h
      · subst h
        by_cases ht : x.timestamp < y.timestamp
        · simp only [if_pos ht]
          exact le_trans (le_of_lt ht) (ih y y (List.mem_cons_self y xs))
        · simp only [if_neg ht]
          exact ih x x (List.mem_cons_self x xs)
      · rcases List.mem_cons.1 h with h' | h'
        · subst h'
          by_cases ht : s.timestamp < x.timestamp
          · simp only [if_pos ht]
            exact ih x x (List.mem_cons_self x xs)
          · simp only [if_neg ht]
            exact le_trans (le_of_not_lt ht) (ih s s (List.mem_cons_self s xs))
        · by_cases ht : s.timestamp < y.timestamp
          · simp only [if_pos ht]
            exact ih y x (List.mem_cons.2 (Or.inr h'))
          · simp only [if_neg ht]
            exact ih s x (List.mem_cons.2 (Or.inr h'))

/-- The `latestSensors` dictionary answers exactly the spec-side per-type
latest-reading selection. -/
theorem lookupA_latestFold (ss : List SensorData) (t : String) :
    lookupA (latestFold ss) t = latestOfType ss t := by
  unfold latestFold latestOfType
  have hstep : ss.foldl latestStep [] =
      ss.foldl (dictStep (fun s => s.sensor_type)
        (fun s prev => if prev.timestamp < s.timestamp then s else prev)
        (fun s => s)) [] := by
    congr 1
    funext acc s
    exact latestStep_eq_dictStep acc s
  rw [hstep, foldl_dictStep_lookupA]
  cases h : ss.filter (fun s => decide (s.sensor_type = t)) with
  | nil => rfl
  | cons x xs =>
      simp only [lookupA, dictRun, dictRun_some]
      rfl

/-- The per-brand dictionary answers the fold of `updateStats` over the
brand's campaigns in collection order. -/
theorem lookupA_brandFold (ms : List PerformanceMetric) (cs : List Campaign)
    (b : String) :
    lookupA (cs.foldl (brandStep ms) []) b =
      match cs.filter (fun c => decide (c.brand = b)) with
      | [] => none
      | own => some (own.foldl (fun st c => updateStats ms c st) BrandStats.zero) := by
  have hstep : cs.foldl (brandStep ms) [] =
      cs.foldl (dictStep (fun c => c.brand) (fun c st => updateStats ms c st)
        (fun c => updateStats ms c BrandStats.zero)) [] := by
    congr 1
    funext acc c
    exact brandStep_eq_dictStep ms acc c
  rw [hstep, foldl_dictStep_lookupA]
  cases h : cs.filter (fun c => decide (c.brand = b)) with
  | nil => rfl
  | cons x xs =>
      simp only [lookupA, dictRun, dictRun_some]
      rfl

/-! ## What the per-brand loop body does to each field -/

theorem updateStats_campaigns (ms : List PerformanceMetric) (c : Campaign)
    (st : BrandStats) : (updateStats ms c st).campaigns = st.campaigns + 1 := by
  unfold updateStats
  by_cases h : (windowMetrics ms c).length > 0 <;> simp [h]

theorem updateStats_totalReach (ms : List PerformanceMetric) (c : Campaign)
    (st : BrandStats) :
    (updateStats ms c st).totalReach =
      st.totalReach + sumBy (·.reach) (windowMetrics ms c) := by
  unfold updateStats
  by_cases h : (windowMetrics ms c).length > 0
  · simp [h]
  · have hnil : windowMetrics ms c = [] :=
      List.eq_nil_of_length_eq_zero (Nat.eq_zero_of_not_pos h)
    simp [h, hnil, sumBy]

theorem updateStats_avgROI_pos (ms : List PerformanceMetric) (c : Campaign)
    (st : BrandStats) (h : windowMetrics ms c ≠ []) :
    (updateStats ms c st).avgROI =
      sumBy (·.roi) (windowMetrics ms c) / (windowMetrics ms c).length := by
  unfold updateStats
  simp [List.length_pos.2 h]

theorem updateStats_avgROI_nil (ms : List PerformanceMetric) (c : Campaign)
    (st : BrandStats) (h : windowMetrics ms c = []) :
    (updateStats ms c st).avgROI = st.avgROI := by
  unfold updateStats
  simp [h]

theorem updateStats_avgEngagement_pos (ms : List PerformanceMetric) (c : Campaign)
    (st : BrandStats) (h : windowMetrics ms c ≠ []) :
    (updateStats ms c st).avgEngagement =
      sumBy (·.engagement_rate) (windowMetrics ms c) / (windowMetrics ms c).length := by
  unfold updateStats
  simp [List.length_pos.2 h]

theorem updateStats_avgEngagement_nil (ms : List PerformanceMetric) (c : Campaign)
    (st : BrandStats) (h : windowMetrics ms c = []) :
    (updateStats ms c st).avgEngagement = st.avgEngagement := by
  unfold updateStats
  simp [h]

/-! ## What the whole per-brand fold computes -/

theorem foldl_updateStats_campaigns (ms : List PerformanceMetric)
    (cs : List Campaign) (st : BrandStats) :
    (cs.foldl (fun st c => updateStats ms c st) st).campaigns =
      st.campaigns + cs.length := by
  induction cs generalizing st with
  | nil => simp
  | cons c cs ih =>
      simp only [List.foldl_cons, ih, updateStats_campaigns, List.length_cons]
      omega

theorem foldl_updateStats_totalReach (ms : List PerformanceMetric)
    (cs : List Campaign) (st : BrandStats) :
    (cs.foldl (fun st c => updateStats ms c st) st).totalReach =
      st.totalReach + (cs.map (fun c => sumBy (·.reach) (windowMetrics ms c))).sum := by
  induction cs generalizing st with
  | nil => simp
  | cons c cs ih =>
      simp only [List.foldl_cons, ih, updateStats_totalReach, List.map_cons,
        List.sum_cons]
      ring


theorem foldl_updateStats_avgROI (ms : List PerformanceMetric)
    (cs : List Campaign) (st : BrandStats) :
    (cs.foldl (fun st c => updateStats ms c st) st).avgROI =
      match (cs.filter (fun c => decide (windowMetrics ms c ≠ []))).getLast? with
      | none => st.avgROI
      | some c => sumBy (·.roi) (windowMetrics ms c) / (windowMetrics ms c).length := by
  induction cs generalizing st with
  | nil => rfl
  | cons c cs ih =>
      by_cases hw : windowMetrics ms c = []
      · have hfil : (c :: cs).filter (fun c => decide (windowMetrics ms c ≠ [])) =
            cs.filter (fun c => decide (windowMetrics ms c ≠ [])) := by
          simp [List.filter_cons, hw]
        rw [List.foldl_cons, ih, hfil]
        rcases hlast : (cs.filter (fun c => decide (windowMetrics ms c ≠ []))).getLast?
          with _ | c'
        · simp only []
          exact updateStats_avgROI_nil ms c st hw
        · rfl
      · have hfil : (c :: cs).filter (fun c => decide (windowMetrics ms c ≠ [])) =
            c :: cs.filter (fun c => decide (windowMetrics ms c ≠ [])) := by
          simp [List.filter_cons, hw]
        rw [List.foldl_cons, ih, hfil, List.getLast?_cons]
        rcases hlast : (cs.filter (fun c => decide (windowMetrics ms c ≠ []))).getLast?
          with _ | c'
        · simp only [Option.getD_none]
          exact updateStats_avgROI_pos ms c st hw
        · rfl

theorem foldl_updateStats_avgEngagement (ms : List PerformanceMetric)
    (cs : List Campaign) (st : BrandStats) :
    (cs.foldl (fun st c => updateStats ms c st) st).avgEngagement =
      match (cs.filter (fun c => decide (windowMetrics ms c ≠ []))).getLast? with
      | none => st.avgEngagement
      | some c => sumBy (·.engagement_rate) (windowMetrics ms c) /
          (windowMetrics ms c).length := by
  induction cs generalizing st with
  | nil => rfl
  | cons c cs ih =>
      by_cases hw : windowMetrics ms c = []
      · have hfil : (c :: cs).filter (fun c => decide (windowMetrics ms c ≠ [])) =
            cs.filter (fun c => decide (windowMetrics ms c ≠ [])) := by
          simp [List.filter_cons, hw]
        rw [List.foldl_cons, ih, hfil]
        rcases hlast : (cs.filter (fun c => decide (windowMetrics ms c ≠ []))).getLast?
          with _ | c'
        · simp only []
          exact updateStats_avgEngagement_nil ms c st hw
        · rfl
      · have hfil : (c :: cs).filter (fun c => decide (windowMetrics ms c ≠ [])) =
            c :: cs.filter (fun c => decide (windowMetrics ms c ≠ [])) := by
          simp [List.filter_cons, hw]
        rw [List.foldl_cons, ih, hfil, List.getLast?_cons]
        rcases hlast : (cs.filter (fun c => decide (windowMetrics ms c ≠ []))).getLast?
          with _ | c'
        · simp only [Option.getD_none]
          exact updateStats_avgEngagement_pos ms c st hw
        · rfl

/-- The keys of the per-brand dictionary are distinct. -/
theorem brandFold_keys_nodup (ms : List PerformanceMetric) (cs : List Campaign) :
    ((cs.foldl (brandStep ms) []).map Prod.fst).Nodup := by
  have hstep : cs.foldl (brandStep ms) [] =
      cs.foldl (dictStep (fun c => c.brand) (fun c st => updateStats ms c st)
        (fun c => updateStats ms c BrandStats.zero)) [] := by
    congr 1
    funext acc c
    exact brandStep_eq_dictStep ms acc c
  rw [hstep]
  exact keys_foldl_dictStep_nodup _ _ _ _ _ (by simp)

/-- Every entry of the brand-performance result satisfies the per-entry
characterisation `BrandEntrySpec`. -/
theorem brandEntry_of_mem (cache : DataCache) (cs : List Campaign)
    (ms : List PerformanceMetric) (hc : cache.campaigns = some cs)
    (hm : cache.metrics = some ms) (e : BrandEntry)
    (he : e ∈ getBrandPerformance cache) : BrandEntrySpec cs ms e := by
  simp only [getBrandPerformance, hc, hm] at he
  obtain ⟨p, hp, hep⟩ := List.mem_map.1 he
  have hlook : lookupA (cs.foldl (brandStep ms) []) p.1 = some p.2 :=
    lookupA_of_mem_nodup (brandFold_keys_nodup ms cs) hp
  rw [lookupA_brandFold] at hlook
  have hbrand : e.brand = p.1 := by rw [← hep]
  rcases hfil : cs.filter (fun c => decide (c.brand = p.1)) with _ | ⟨c0, own'⟩
  · rw [hfil] at hlook
    cases hlook
  · rw [hfil] at hlook
    have hval : p.2 = (c0 :: own').foldl (fun st c => updateStats ms c st)
        BrandStats.zero := (Option.some.inj hlook).symm
    unfold BrandEntrySpec
    rw [hbrand, hfil]
    refine ⟨by simp, ?_, ?_, ?_, ?_⟩
    · have h : e.campaigns = p.2.campaigns := by rw [← hep]
      rw [h, hval, foldl_updateStats_campaigns]
      simp [BrandStats.zero]
    · have h : e.totalReach = p.2.totalReach := by rw [← hep]
      rw [h, hval, foldl_updateStats_totalReach]
      simp [BrandStats.zero]
    · have h : e.avgROI = p.2.avgROI := by rw [← hep]
      rw [h, hval, foldl_updateStats_avgROI]
      rcases ((c0 :: own').filter (fun c => decide (windowMetrics ms c ≠ []))).getLast?
        with _ | c' <;> rfl
    · have h : e.avgEngagement = p.2.avgEngagement := by rw [← hep]
      rw [h, hval, foldl_updateStats_avgEngagement]
      rcases ((c0 :: own').filter (fun c => decide (windowMetrics ms c ≠ []))).getLast?
        with _ | c' <;> rfl

/-- **C1** (corrected).  Every entry of `brandPerformance()` carries the
brand's campaign count and the reach summed over all the brand's per-campaign
windows, but its `avgROI`/`avgEngagement` are the window averages of the
*last* campaign of the brand (in collection order) whose window is non-empty
— not averages over the union of the windows. -/
theorem getBrandPerformance_entry_spec (cache : DataCache) (cs : List Campaign)
    (ms : List PerformanceMetric) (hc : cache.campaigns = some cs)
    (hm : cache.metrics = some ms) (e : BrandEntry)
    (he : e ∈ getBrandPerformance cache) : BrandEntrySpec cs ms e :=
  brandEntry_of_mem cache cs ms hc hm e he

/-- **C1** counterexample.  With two campaigns of brand `"B"` whose windows
hold ROI `2` and ROI `4` respectively, the reported `avgROI` is `4` (the last
campaign's window average) while the average over the union of the two
windows is `3`: the claimed union-window averaging does not hold. -/
theorem getBrandPerformance_not_union_average :
    (getBrandPerformance cacheExA).map (fun e => e.avgROI) = [4] ∧
    unionWindowAvgROI [cA1, cA2] [mA1, mA2] "B" = 3 ∧
    (getBrandPerformance cacheExA).map (fun e => e.avgROI) ≠
      [unionWindowAvgROI [cA1, cA2] [mA1, mA2] "B"] := by
  have h4 : (getBrandPerformance cacheExA).map (fun e => e.avgROI) = [4] := by
    simp [getBrandPerformance, cacheExA, cA1, cA2, mA1, mA2, brandStep, updateStats,
      windowMetrics, sortStable, insertSorted, lookupA, updateA, sumBy, BrandStats.zero]
  have h3 : unionWindowAvgROI [cA1, cA2] [mA1, mA2] "B" = 3 := by
    simp [unionWindowAvgROI, cA1, cA2, mA1, mA2, windowMetrics, sortStable,
      insertSorted, sumBy]
    norm_num
  refine ⟨h4, h3, ?_⟩
  rw [h4, h3]
  intro h
  simp only [List.cons.injEq, and_true] at h
  norm_num at h

/-- Witness for the corrected **C1** theorem at the two-campaign cache. -/
theorem getBrandPerformance_entry_spec_witness :
    cacheExA.campaigns = some [cA1, cA2] ∧ cacheExA.metrics = some [mA1, mA2] ∧
    (⟨"B", 2, 4, 1, 200⟩ : BrandEntry) ∈ getBrandPerformance cacheExA ∧
    BrandEntrySpec [cA1, cA2] [mA1, mA2] ⟨"B", 2, 4, 1, 200⟩ := by
  have hout : getBrandPerformance cacheExA = [⟨"B", 2, 4, 1, 200⟩] := by
    simp [getBrandPerformance, cacheExA, cA1, cA2, mA1, mA2, brandStep, updateStats,
      windowMetrics, sortStable, insertSorted, lookupA, updateA, sumBy, BrandStats.zero]
    norm_num
  refine ⟨rfl, rfl, by rw [hout]; exact List.mem_singleton.2 rfl, ?_⟩
  exact getBrandPerformance_entry_spec cacheExA [cA1, cA2] [mA1, mA2] rfl rfl _
    (by rw [hout]; exact List.mem_singleton.2 rfl)

/-- A campaign with no matching metric rows has an empty window. -/
theorem windowMetrics_eq_nil (ms : List PerformanceMetric) (c : Campaign)
    (h : ∀ m ∈ ms, m.campaign_id ≠ c.campaign_id) :
    windowMetrics ms c = [] := by
  unfold windowMetrics
  have hfil : ms.filter (fun m => m.campaign_id = c.campaign_id) = [] := by
    rw [List.filter_eq_nil_iff]
    intro m hm
    simpa using h m hm
  rw [hfil]
  rfl

/-- **C6** (confirmed).  When no metric row references any campaign (in
particular when the metrics collection is empty), every `brandPerformance()`
entry reports `avgROI = 0`, `avgEngagement = 0` and `totalReach = 0`; the
division is guarded by the window-length check, so no division by zero is
performed (and in this rational model no `NaN` exists). -/
theorem getBrandPerformance_zero_on_unmatched (cache : DataCache)
    (cs : List Campaign) (ms : List PerformanceMetric)
    (hc : cache.campaigns = some cs) (hm : cache.metrics = some ms)
    (hnomatch : ∀ m ∈ ms, ∀ c ∈ cs, m.campaign_id ≠ c.campaign_id)
    (e : BrandEntry) (he : e ∈ getBrandPerformance cache) :
    e.avgROI = 0 ∧ e.avgEngagement = 0 ∧ e.totalReach = 0 := by
  obtain ⟨hne, hcamp, hreach, hroi, heng⟩ := brandEntry_of_mem cache cs ms hc hm e he
  have hwin : ∀ c ∈ cs, windowMetrics ms c = [] := by
    intro c hcmem
    exact windowMetrics_eq_nil ms c (fun m hm' => hnomatch m hm' c hcmem)
  have hfilnil : (cs.filter (fun c => decide (c.brand = e.brand))).filter
      (fun c => decide (windowMetrics ms c ≠ [])) = [] := by
    rw [List.filter_eq_nil_iff]
    intro c hcmem
    simp [hwin c (List.mem_filter.1 hcmem).1]
  refine ⟨?_, ?_, ?_⟩
  · rw [hroi, hfilnil]
    rfl
  · rw [heng, hfilnil]
    rfl
  · rw [hreach]
    apply List.sum_eq_zero
    intro x hx
    obtain ⟨c, hcmem, rfl⟩ := List.mem_map.1 hx
    simp [hwin c (List.mem_filter.1 hcmem).1, sumBy]

/-- Witness for the **C6** theorem: one campaign, one orphaned metric row. -/
theorem getBrandPerformance_zero_on_unmatched_witness :
    cacheExN.campaigns = some [cB1] ∧
    cacheExN.metrics = some [⟨"other", 0, 2, 1, 100⟩] ∧
    (∀ m ∈ [(⟨"other", 0, 2, 1, 100⟩ : PerformanceMetric)], ∀ c ∈ [cB1],
      m.campaign_id ≠ c.campaign_id) ∧
    (⟨"N", 1, 0, 0, 0⟩ : BrandEntry) ∈ getBrandPerformance cacheExN ∧
    (⟨"N", 1, 0, 0, 0⟩ : BrandEntry).avgROI = 0 ∧
    (⟨"N", 1, 0, 0, 0⟩ : BrandEntry).avgEngagement = 0 ∧
    (⟨"N", 1, 0, 0, 0⟩ : BrandEntry).totalReach = 0 := by
  have hout : getBrandPerformance cacheExN = [⟨"N", 1, 0, 0, 0⟩] := by
    simp [getBrandPerformance, cacheExN, cB1, brandStep, updateStats,
      windowMetrics, sortStable, insertSorted, lookupA, updateA, sumBy, BrandStats.zero]
  have hmem : (⟨"N", 1, 0, 0, 0⟩ : BrandEntry) ∈ getBrandPerformance cacheExN := by
    rw [hout]
    exact List.mem_singleton.2 rfl
  have hmatch : ∀ m ∈ [(⟨"other", 0, 2, 1, 100⟩ : PerformanceMetric)], ∀ c ∈ [cB1],
      m.campaign_id ≠ c.campaign_id := by
    intro m hm c hc
    rw [List.mem_singleton] at hm hc
    subst hm; subst hc
    simp [cB1]
  have h := getBrandPerformance_zero_on_unmatched cacheExN [cB1]
    [⟨"other", 0, 2, 1, 100⟩] rfl rfl hmatch ⟨"N", 1, 0, 0, 0⟩ hmem
  exact ⟨rfl, rfl, hmatch, hmem, h.1, h.2.1, h.2.2⟩

/-- **C2** (corrected).  A query call keeps the records of every cached
collection (the campaigns collection as a multiset, every other collection
unchanged), but `latestCampaigns` re-orders the cached campaigns array: its
in-place `.sort` leaves the cache sorted by creation timestamp descending
rather than in the original order.  The remaining query operations only use
non-mutating array methods and read the cache as-is. -/
theorem getLatestCampaigns_cache_effect (cache : DataCache) (limit : Int) :
    ((getLatestCampaigns cache limit).2.campaigns.getD []).Perm
      (cache.campaigns.getD []) ∧
    (getLatestCampaigns cache limit).2.metrics = cache.metrics ∧
    (getLatestCampaigns cache limit).2.assets = cache.assets ∧
    (getLatestCampaigns cache limit).2.sensors = cache.sensors ∧
    (getLatestCampaigns cache limit).2.models = cache.models := by
  rcases hc : cache.campaigns with _ | cs
  · simp [getLatestCampaigns, hc]
  · constructor
    · simp only [getLatestCampaigns, hc, Option.getD_some]
      exact sortStable_perm _ cs
    · simp [getLatestCampaigns, hc]

/-- **C2** counterexample.  With two cached campaigns stored oldest-first, a
`latestCampaigns` call leaves the cached campaigns array re-ordered: the
cache does not hold the same records in the same order afterwards. -/
theorem getLatestCampaigns_mutates_cache :
    (getLatestCampaigns cacheExA 10).2.campaigns ≠ cacheExA.campaigns := by
  decide

/-- **C3** (corrected).  `latestCampaigns(0)` is empty and an empty campaign
collection yields an empty result for every limit, but a strictly negative
limit does not: `slice(0, limit)` then keeps all but the last `-limit`
elements, so the result has `max 0 (count + limit)` entries. -/
theorem getLatestCampaigns_nonpositive_limit (cache : DataCache)
    (cs : List Campaign) (hc : cache.campaigns = some cs) (limit : Int)
    (hl : limit < 0) :
    (getLatestCampaigns cache 0).1 = [] ∧
    (getLatestCampaigns cache limit).1.length = ((cs.length : Int) + limit).toNat ∧
    (cs = [] → ∀ lim : Int, (getLatestCampaigns cache lim).1 = []) := by
  refine ⟨?_, ?_, ?_⟩
  · simp [getLatestCampaigns, hc, jsSliceTo]
  · simp only [getLatestCampaigns, hc]
    unfold jsSliceTo
    rw [if_pos hl, List.length_take, sortStable_length]
    exact Nat.min_eq_left (Int.toNat_le.2 (by omega))
  · intro hnil lim
    subst hnil
    simp only [getLatestCampaigns, hc]
    unfold jsSliceTo
    split <;> simp [sortStable]

/-- **C3** counterexample.  The limit `-1` is non-positive, yet on a cache
with two campaigns `latestCampaigns(-1)` returns a non-empty list. -/
theorem getLatestCampaigns_negative_limit_not_empty :
    ((-1 : Int) ≤ 0) ∧ (getLatestCampaigns cacheExA (-1)).1 ≠ [] := by
  decide

/-- Witness for the corrected **C3** theorem at limit `-1`. -/
theorem getLatestCampaigns_nonpositive_limit_witness :
    cacheExA.campaigns = some [cA1, cA2] ∧ ((-1 : Int) < 0) ∧
    (getLatestCampaigns cacheExA 0).1 = [] ∧
    (getLatestCampaigns cacheExA (-1)).1.length =
      ((([cA1, cA2] : List Campaign).length : Int) + (-1)).toNat ∧
    (([cA1, cA2] : List Campaign) = [] →
      ∀ lim : Int, (getLatestCampaigns cacheExA lim).1 = []) := by
  have h := getLatestCampaigns_nonpositive_limit cacheExA [cA1, cA2] rfl (-1)
    (by norm_num)
  exact ⟨rfl, by norm_num, h.1, h.2.1, h.2.2⟩

/-- **C4** (corrected).  `performanceTrends(days)` with `days ≤ 0` returns an
empty series provided every metric row is dated strictly before `now` (the
cutoff `now - days` never reaches into the data); a future-dated row can
still pass the `date ≥ cutoff` filter.  The `days` parameter defaults
to `30`. -/
theorem getPerformanceTrends_empty_on_past (cache : DataCache)
    (ms : List PerformanceMetric) (hm : cache.metrics = some ms)
    (now days : Int) (hd : days ≤ 0) (hpast : ∀ m ∈ ms, m.date < now) :
    getPerformanceTrends cache now days = [] ∧
    getPerformanceTrends cache now = getPerformanceTrends cache now 30 := by
  constructor
  · simp only [getPerformanceTrends, hm]
    have hfil : ms.filter (fun m => decide (now - days ≤ m.date)) = [] := by
      rw [List.filter_eq_nil_iff]
      intro m hmm
      have := hpast m hmm
      simp only [decide_eq_true_eq]
      omega
    rw [hfil]
    rfl
  · rfl

/-- **C4** counterexample.  `days = 0` is non-positive, yet a metric dated
one day after `now` passes the cutoff filter and produces a non-empty
series. -/
theorem getPerformanceTrends_future_not_empty :
    ((0 : Int) ≤ 0) ∧ getPerformanceTrends cacheExD 10 0 ≠ [] := by
  refine ⟨le_refl 0, ?_⟩
  have h : getPerformanceTrends cacheExD 10 0 = [⟨11, 2, 1, 100⟩] := by
    simp [getPerformanceTrends, cacheExD, trendStep, lookupA, updateA, sortStable,
      insertSorted, jsToFixed2, jsRound, sumBy]
    norm_num
  rw [h]
  simp

/-- Witness for the corrected **C4** theorem: one past-dated metric,
`days = 0`. -/
theorem getPerformanceTrends_empty_on_past_witness :
    cacheExD.metrics = some [⟨"c1", 11, 2, 1, 100⟩] ∧ ((0 : Int) ≤ 0) ∧
    (∀ m ∈ [(⟨"c1", 11, 2, 1, 100⟩ : PerformanceMetric)], m.date < 20) ∧
    getPerformanceTrends cacheExD 20 0 = [] ∧
    getPerformanceTrends cacheExD 20 = getPerformanceTrends cacheExD 20 30 := by
  have hpast : ∀ m ∈ [(⟨"c1", 11, 2, 1, 100⟩ : PerformanceMetric)], m.date < 20 := by
    intro m hm
    rw [List.mem_singleton] at hm
    subst hm
    norm_num
  have h := getPerformanceTrends_empty_on_past cacheExD [⟨"c1", 11, 2, 1, 100⟩]
    rfl 20 0 (le_refl 0) hpast
  exact ⟨rfl, le_refl 0, hpast, h.1, h.2⟩

/-! ## Sensor dictionary infrastructure -/

theorem latestFold_eq_dictFold (ss : List SensorData) :
    latestFold ss = ss.foldl (dictStep (fun s => s.sensor_type)
      (fun s prev => if prev.timestamp < s.timestamp then s else prev)
      (fun s => s)) [] := by
  unfold latestFold
  congr 1
  funext acc s
  exact latestStep_eq_dictStep acc s

theorem latestFold_keys_nodup (ss : List SensorData) :
    ((latestFold ss).map Prod.fst).Nodup := by
  rw [latestFold_eq_dictFold]
  exact keys_foldl_dictStep_nodup _ _ _ _ _ (by simp)

theorem mem_keys_latestFold (ss : List SensorData) (t : String) :
    t ∈ (latestFold ss).map Prod.fst ↔ t ∈ ss.map (·.sensor_type) := by
  rw [latestFold_eq_dictFold]
  rw [mem_keys_foldl_dictStep]
  simp

/-- The keys of the sensor dictionary are a permutation of the distinct
sensor types. -/
theorem latestFold_keys_perm (ss : List SensorData) :
    ((latestFold ss).map Prod.fst).Perm (distinctTypes ss) := by
  refine (List.perm_ext_iff_of_nodup (latestFold_keys_nodup ss)
    (List.nodup_dedup _)).2 ?_
  intro t
  rw [mem_keys_latestFold, List.mem_dedup]

/-- Membership in the sensor dictionary determines the spec-side latest
reading of the key. -/
theorem latestOfType_of_mem_latestFold {ss : List SensorData}
    {p : String × SensorData} (hp : p ∈ latestFold ss) :
    latestOfType ss p.1 = some p.2 := by
  rw [← lookupA_latestFold]
  obtain ⟨t, r⟩ := p
  exact lookupA_of_mem_nodup (latestFold_keys_nodup ss) hp

/-- The spec-side latest reading of a type is a reading of that type with the
maximal timestamp among the type's readings. -/
theorem latestOfType_spec (ss : List SensorData) (t : String) (r : SensorData)
    (h : latestOfType ss t = some r) :
    r ∈ ss ∧ r.sensor_type = t ∧
      ∀ r' ∈ ss, r'.sensor_type = t → r'.timestamp ≤ r.timestamp := by
  unfold latestOfType at h
  rcases hfil : ss.filter (fun s => decide (s.sensor_type = t)) with _ | ⟨x, xs⟩
  · rw [hfil] at h
    cases h
  · rw [hfil] at h
    have hr : r = pickLatest x xs := (Option.some.inj h).symm
    have hmem : r ∈ ss.filter (fun s => decide (s.sensor_type = t)) := by
      rw [hfil, hr]
      exact pickLatest_mem x xs
    have hmem' := List.mem_filter.1 hmem
    refine ⟨hmem'.1, by simpa using hmem'.2, ?_⟩
    intro r' hr' ht'
    have : r' ∈ ss.filter (fun s => decide (s.sensor_type = t)) :=
      List.mem_filter.2 ⟨hr', by simpa using ht'⟩
    rw [hfil] at this
    rw [hr]
    exact pickLatest_max x xs r' this

/-- The entries of `getSensorStatus` are, positionally, the values of the
sensor dictionary. -/
theorem getSensorStatus_map (ss : List SensorData) (cache : DataCache)
    (rand : SensorDraws) (hs : cache.sensors = some ss)
    (f : SensorEntry → γ) (g : SensorData → γ)
    (hf : ∀ i : Nat, ∀ r : SensorData,
      f ⟨displayName r.sensor_type, r.value, r.status, r.timestamp,
          trendString (rand i)⟩ = g r) :
    (getSensorStatus cache rand).map f = (latestFold ss).map (fun p => g p.2) := by
  simp only [getSensorStatus, hs]
  rw [List.map_map]
  have h1 : ((latestFold ss).enum.map
      ((fun e => f e) ∘ (fun p : Nat × (String × SensorData) =>
        (⟨displayName p.2.2.sensor_type, p.2.2.value, p.2.2.status,
          p.2.2.timestamp, trendString (rand p.1)⟩ : SensorEntry)))) =
      (latestFold ss).enum.map (fun p => g p.2.2) := by
    apply List.map_congr_left
    intro p _
    exact hf p.1 p.2.2
  rw [h1]
  have h2 : (latestFold ss).enum.map (fun p => g p.2.2) =
      ((latestFold ss).enum.map Prod.snd).map (fun p => g p.2) := by
    rw [List.map_map]
    rfl
  rw [h2, List.enum_map_snd]

/-! ## Display-name characterisation -/

theorem replaceFirstUnderscore_of_not_mem {l : List Char} (h : '_' ∉ l) :
    replaceFirstUnderscore l = l := by
  induction l with
  | nil => rfl
  | cons c cs ih =>
      have hc : c ≠ '_' := fun hc => h (hc ▸ List.mem_cons_self c cs)
      have hcs : '_' ∉ cs := fun hm => h (List.mem_cons.2 (Or.inr hm))
      simp [replaceFirstUnderscore, hc, ih hcs]

theorem replaceFirstUnderscore_of_mem {l : List Char} (h : '_' ∈ l) :
    ∃ pre post : List Char, ('_' ∉ pre) ∧ l = pre ++ '_' :: post ∧
      replaceFirstUnderscore l = pre ++ ' ' :: post := by
  induction l with
  | nil => cases h
  | cons c cs ih =>
      by_cases hc : c = '_'
      · subst hc
        exact ⟨[], cs, by simp, rfl, by simp [replaceFirstUnderscore]⟩
      · have hcs : '_' ∈ cs := by
          rcases List.mem_cons.1 h with h' | h'
          · exact absurd h'.symm hc
          · exact h'
        obtain ⟨pre, post, hpre, hsplit, hrepl⟩ := ih hcs
        refine ⟨c :: pre, post, ?_, by simp [hsplit], ?_⟩
        · intro hm
          rcases List.mem_cons.1 hm with h' | h'
          · exact hc h'.symm
          · exact hpre h'
        · simp [replaceFirstUnderscore, hc, hrepl]

/-- The display name: the first underscore (when present) becomes a space,
every character is upper-cased. -/
theorem displayName_spec (s : String) :
    (('_' ∉ s.data) ∧ (displayName s).data = s.data.map Char.toUpper) ∨
    (∃ pre post : List Char, ('_' ∉ pre) ∧ s.data = pre ++ '_' :: post ∧
      (displayName s).data =
        pre.map Char.toUpper ++ ' '.toUpper :: post.map Char.toUpper) := by
  by_cases h : '_' ∈ s.data
  · right
    obtain ⟨pre, post, hpre, hsplit, hrepl⟩ := replaceFirstUnderscore_of_mem h
    exact ⟨pre, post, hpre, hsplit, by simp [displayName, hrepl]⟩
  · left
    exact ⟨h, by simp [displayName, replaceFirstUnderscore_of_not_mem h]⟩

theorem filterMap_eq_map_of_some {α γ : Type} {l : List α} {f : α → Option γ}
    {g : α → γ} (h : ∀ a ∈ l, f a = some (g a)) : l.filterMap f = l.map g := by
  induction l with
  | nil => rfl
  | cons a l ih =>
      rw [List.filterMap_cons, h a (List.mem_cons_self a l), List.map_cons,
        ih (fun b hb => h b (List.mem_cons.2 (Or.inr hb)))]

/-- **C8** (corrected).  `sensorStatus()` has exactly one entry per distinct
`sensor_type` — the entries' (value, status, timestamp) triples are a
permutation of the per-type latest readings' triples — and each entry carries
the value, status and timestamp of the reading of its type with maximal
timestamp (the earliest such reading on timestamp ties).  The display name,
however, upper-cases the type with only the *first* underscore replaced by a
space: `String.prototype.replace` with a string pattern substitutes a single
occurrence, so later underscores survive. -/
theorem getSensorStatus_entries_spec (cache : DataCache) (ss : List SensorData)
    (rand : SensorDraws) (hs : cache.sensors = some ss) :
    ((getSensorStatus cache rand).map
        (fun e => (e.value, e.status, e.timestamp))).Perm
      ((distinctTypes ss).filterMap (fun t => (latestOfType ss t).map
        (fun r => (r.value, r.status, r.timestamp)))) ∧
    (∀ t : String, ∀ r : SensorData, latestOfType ss t = some r →
      r ∈ ss ∧ r.sensor_type = t ∧
      ∀ r' ∈ ss, r'.sensor_type = t → r'.timestamp ≤ r.timestamp) ∧
    (∀ e ∈ getSensorStatus cache rand, ∃ r : SensorData,
      latestOfType ss r.sensor_type = some r ∧
      e.value = r.value ∧ e.status = r.status ∧ e.timestamp = r.timestamp ∧
      ((('_' ∉ r.sensor_type.data) ∧
          e.name.data = r.sensor_type.data.map Char.toUpper) ∨
        (∃ pre post : List Char, ('_' ∉ pre) ∧
          r.sensor_type.data = pre ++ '_' :: post ∧
          e.name.data =
            pre.map Char.toUpper ++ ' '.toUpper :: post.map Char.toUpper))) := by
  refine ⟨?_, fun t r h => latestOfType_spec ss t r h, ?_⟩
  · have hmap : (getSensorStatus cache rand).map
        (fun e => (e.value, e.status, e.timestamp)) =
        (latestFold ss).map (fun p => (p.2.value, p.2.status, p.2.timestamp)) :=
      getSensorStatus_map ss cache rand hs
        (fun e => (e.value, e.status, e.timestamp))
        (fun r => (r.value, r.status, r.timestamp)) (fun i r => rfl)
    rw [hmap]
    have h1 : ((latestFold ss).map Prod.fst).filterMap
        (fun t => (latestOfType ss t).map
          (fun r => (r.value, r.status, r.timestamp))) =
        (latestFold ss).map (fun p => (p.2.value, p.2.status, p.2.timestamp)) := by
      rw [List.filterMap_map]
      apply filterMap_eq_map_of_some
      intro p hp
      simp only [Function.comp]
      rw [latestOfType_of_mem_latestFold hp]
      rfl
    have h2 := (latestFold_keys_perm ss).symm.filterMap
      (fun t => (latestOfType ss t).map
        (fun r => (r.value, r.status, r.timestamp)))
    rw [h1] at h2
    exact h2.symm
  · intro e he
    simp only [getSensorStatus, hs] at he
    obtain ⟨q, hq, hqe⟩ := List.mem_map.1 he
    have hmem : q.2 ∈ (latestFold ss).enum.map Prod.snd :=
      List.mem_map.2 ⟨q, hq, rfl⟩
    rw [List.enum_map_snd] at hmem
    have hlook := latestOfType_of_mem_latestFold hmem
    obtain ⟨hin, htype, hmax⟩ := latestOfType_spec ss q.2.1 q.2.2 hlook
    refine ⟨q.2.2, by rw [htype]; exact hlook, ?_, ?_, ?_, ?_⟩
    · rw [← hqe]
    · rw [← hqe]
    · rw [← hqe]
    · have hname : e.name = displayName q.2.2.sensor_type := by rw [← hqe]
      rw [hname]
      exact displayName_spec q.2.2.sensor_type

/-- **C8** counterexample.  For a sensor type with two underscores the
emitted name keeps the second underscore: the claimed every-underscore
replacement does not hold. -/
theorem getSensorStatus_name_counterexample :
    (getSensorStatus cacheExS randPlus).map (fun e => e.name) = ["A B_C"] ∧
    specNameAll "a_b_c" = "A B C" ∧
    (getSensorStatus cacheExS randPlus).map (fun e => e.name) ≠
      [specNameAll "a_b_c"] := by
  decide

/-- Witness for the corrected **C8** theorem at the two-underscore sensor. -/
theorem getSensorStatus_entries_spec_witness :
    cacheExS.sensors = some [⟨"a_b_c", 1, 5, "OK"⟩] ∧
    (((getSensorStatus cacheExS randPlus).map
        (fun e => (e.value, e.status, e.timestamp))).Perm
      ((distinctTypes [⟨"a_b_c", 1, 5, "OK"⟩]).filterMap
        (fun t => (latestOfType [⟨"a_b_c", 1, 5, "OK"⟩] t).map
          (fun r => (r.value, r.status, r.timestamp)))) ∧
    (∀ t : String, ∀ r : SensorData,
      latestOfType [⟨"a_b_c", 1, 5, "OK"⟩] t = some r →
      r ∈ [(⟨"a_b_c", 1, 5, "OK"⟩ : SensorData)] ∧ r.sensor_type = t ∧
      ∀ r' ∈ [(⟨"a_b_c", 1, 5, "OK"⟩ : SensorData)], r'.sensor_type = t →
        r'.timestamp ≤ r.timestamp) ∧
    (∀ e ∈ getSensorStatus cacheExS randPlus, ∃ r : SensorData,
      latestOfType [⟨"a_b_c", 1, 5, "OK"⟩] r.sensor_type = some r ∧
      e.value = r.value ∧ e.status = r.status ∧ e.timestamp = r.timestamp ∧
      ((('_' ∉ r.sensor_type.data) ∧
          e.name.data = r.sensor_type.data.map Char.toUpper) ∨
        (∃ pre post : List Char, ('_' ∉ pre) ∧
          r.sensor_type.data = pre ++ '_' :: post ∧
          e.name.data =
            pre.map Char.toUpper ++ ' '.toUpper :: post.map Char.toUpper)))) :=
  ⟨rfl, getSensorStatus_entries_spec cacheExS [⟨"a_b_c", 1, 5, "OK"⟩] randPlus rfl⟩

/-- **C9** (confirmed).  With the random draws supplied as inputs in `[0, 1)`,
every `trend` string is either exactly `"+"` (the plus branch of the ternary
carries no number) or `"-"` followed by a decimal with one fractional digit
and a trailing `"%"`. -/
theorem getSensorStatus_trend_shape (cache : DataCache) (rand : SensorDraws)
    (hr : ∀ i : Nat, 0 ≤ (rand i).2 ∧ (rand i).2 < 1)
    (e : SensorEntry) (he : e ∈ getSensorStatus cache rand) :
    e.trend = "+" ∨ ∃ k : Nat, k ≤ 100 ∧
      e.trend = "-" ++ (toString (k / 10) ++ "." ++ toString (k % 10)) ++ "%" := by
  rcases hsen : cache.sensors with _ | ss
  · simp [getSensorStatus, hsen] at he
  · simp only [getSensorStatus, hsen] at he
    obtain ⟨q, _, hqe⟩ := List.mem_map.1 he
    have htrend : e.trend = trendString (rand q.1) := by rw [← hqe]
    cases hb : (rand q.1).1
    · right
      obtain ⟨h0, h1⟩ := hr q.1
      refine ⟨(jsRound ((rand q.1).2 * 10 * 10)).toNat, ?_, ?_⟩
      · rw [Int.toNat_le]
        unfold jsRound
        refine Int.floor_le_iff.2 ?_
        push_cast
        nlinarith
      · rw [htrend]
        unfold trendString
        rw [hb]
        rfl
    · left
      rw [htrend]
      unfold trendString
      rw [hb]
      rfl

/-- Witness for the **C9** theorem with an always-minus draw stream. -/
theorem getSensorStatus_trend_shape_witness :
    (∀ i : Nat, 0 ≤ (randMinus i).2 ∧ (randMinus i).2 < 1) ∧
    (⟨"A B_C", 5, "OK", 1, "-5.0%"⟩ : SensorEntry) ∈
      getSensorStatus cacheExS randMinus ∧
    ((⟨"A B_C", 5, "OK", 1, "-5.0%"⟩ : SensorEntry).trend = "+" ∨
      ∃ k : Nat, k ≤ 100 ∧
        (⟨"A B_C", 5, "OK", 1, "-5.0%"⟩ : SensorEntry).trend =
          "-" ++ (toString (k / 10) ++ "." ++ toString (k % 10)) ++ "%") := by
  have hr : ∀ i : Nat, 0 ≤ (randMinus i).2 ∧ (randMinus i).2 < 1 := by
    intro i
    constructor <;> norm_num [randMinus]
  have hout : getSensorStatus cacheExS randMinus =
      [⟨"A B_C", 5, "OK", 1, "-5.0%"⟩] := by
    have h1 : jsToFixed1 ((2:ℚ)⁻¹ * 10) = "5.0" := by
      unfold jsToFixed1 jsRound
      norm_num
      rfl
    simp [getSensorStatus, cacheExS, latestFold, latestStep, lookupA, trendString,
      randMinus, displayName, replaceFirstUnderscore]
    rw [h1]
    rfl
  have hmem : (⟨"A B_C", 5, "OK", 1, "-5.0%"⟩ : SensorEntry) ∈
      getSensorStatus cacheExS randMinus := by
    rw [hout]
    exact List.mem_singleton.2 rfl
  exact ⟨hr, hmem, getSensorStatus_trend_shape cacheExS randMinus hr _ hmem⟩

/-! ## Pipeline-health infrastructure -/

/-- `sensorStatus()` has one entry per distinct sensor type. -/
theorem getSensorStatus_length (cache : DataCache) (ss : List SensorData)
    (rand : SensorDraws) (hs : cache.sensors = some ss) :
    (getSensorStatus cache rand).length = (distinctTypes ss).length := by
  simp only [getSensorStatus, hs, List.length_map, List.enum_length]
  rw [← List.length_map (latestFold ss) Prod.fst]
  exact (latestFold_keys_perm ss).length_eq

/-- The number of `"OK"` entries of `sensorStatus()` equals the number of
distinct sensor types whose maximum-timestamp reading has status `"OK"`. -/
theorem getSensorStatus_countOK (cache : DataCache) (ss : List SensorData)
    (rand : SensorDraws) (hs : cache.sensors = some ss)
    (hdist : UniqueStamps ss) :
    ((getSensorStatus cache rand).filter (fun e => decide (e.status = "OK"))).length =
      (distinctTypes ss).countP (fun t => decide (latestOK ss t)) := by
  rw [← List.countP_eq_length_filter]
  simp only [getSensorStatus, hs]
  rw [List.countP_map]
  have h1 : List.countP ((fun e => decide (e.status = "OK")) ∘
      (fun p : Nat × (String × SensorData) =>
        (⟨displayName p.2.2.sensor_type, p.2.2.value, p.2.2.status,
          p.2.2.timestamp, trendString (rand p.1)⟩ : SensorEntry)))
      (latestFold ss).enum =
      List.countP ((fun p : String × SensorData => decide (p.2.status = "OK")) ∘
        Prod.snd) (latestFold ss).enum := by
    apply List.countP_congr
    intro q _
    constructor <;> exact fun h => h
  rw [h1, ← List.countP_map, List.enum_map_snd]
  have h2 : List.countP (fun p : String × SensorData => decide (p.2.status = "OK"))
      (latestFold ss) =
      List.countP (fun p : String × SensorData => decide (latestOK ss p.1))
      (latestFold ss) := by
    apply List.countP_congr
    intro p hp
    simp only [decide_eq_true_eq]
    have hlook := latestOfType_of_mem_latestFold hp
    obtain ⟨hin, htype, hmax⟩ := latestOfType_spec ss p.1 p.2 hlook
    constructor
    · intro hOK
      exact ⟨p.2, hin, htype, hmax, hOK⟩
    · rintro ⟨r', hr', htype', hmax', hOK'⟩
      have h1 : p.2.timestamp ≤ r'.timestamp := hmax' p.2 hin htype
      have h2 : r'.timestamp ≤ p.2.timestamp := hmax r' hr' htype'
      have heq : r' = p.2 :=
        hdist r' hr' p.2 hin (htype'.trans htype.symm) (le_antisymm h2 h1)
      rw [← heq]
      exact hOK'
  rw [h2]
  have h3 : List.countP (fun p : String × SensorData => decide (latestOK ss p.1))
      (latestFold ss) =
      List.countP (fun t => decide (latestOK ss t)) ((latestFold ss).map Prod.fst) := by
    rw [List.countP_map]
    rfl
  rw [h3]
  exact (latestFold_keys_perm ss).countP_eq _

/-- **C5** (confirmed).  `dashboardSummary().pipelineHealth` is `100` when the
sensor collection is absent or empty, and otherwise
`round(100 · k / n)` where `n` counts the distinct sensor types and `k`
counts the distinct types whose maximum-timestamp reading (well defined under
per-type timestamp uniqueness) has status `"OK"`. -/
theorem getDashboardSummary_pipelineHealth (cache : DataCache) (now : Int)
    (rand : SensorDraws) (r1 r2 r3 : ℚ)
    (hdist : UniqueStamps (cache.sensors.getD [])) :
    (getDashboardSummary cache now rand r1 r2 r3).pipelineHealth =
      if cache.sensors.getD [] = [] then 100
      else jsRound (100 * ((distinctTypes (cache.sensors.getD [])).countP
          (fun t => decide (latestOK (cache.sensors.getD []) t)) : ℚ) /
        ((distinctTypes (cache.sensors.getD [])).length : ℚ)) := by
  rcases hsen : cache.sensors with _ | ss
  · simp [getDashboardSummary, getSensorStatus, hsen]
  · rw [hsen] at hdist
    simp only [Option.getD_some] at hdist
    simp only [hsen, Option.getD_some]
    rcases hss : ss with _ | ⟨s, tl⟩
    · simp [getDashboardSummary, getSensorStatus, hsen, hss, latestFold]
    · rw [← hss]
      have hne : ss ≠ [] := by
        rw [hss]
        exact List.cons_ne_nil s tl
      have hlen := getSensorStatus_length cache ss rand hsen
      have hcnt := getSensorStatus_countOK cache ss rand hsen hdist
      have hdne : distinctTypes ss ≠ [] := by
        have hmem : s.sensor_type ∈ distinctTypes ss := by
          rw [distinctTypes, List.mem_dedup, hss]
          exact List.mem_map.2 ⟨s, List.mem_cons_self s tl, rfl⟩
        intro hcon
        rw [hcon] at hmem
        cases hmem
      have hpos : 0 < (getSensorStatus cache rand).length := by
        rw [hlen]
        exact List.length_pos.2 hdne
      simp only [getDashboardSummary]
      rw [if_pos hpos, hcnt, hlen, if_neg hne]
      congr 1
      field_simp
      ring

/-- Witness for the **C5** theorem: two sensor types, the later `"lat"`
reading has status `"FAIL"`. -/
theorem getDashboardSummary_pipelineHealth_witness :
    UniqueStamps (cacheExT.sensors.getD []) ∧
    (getDashboardSummary cacheExT 0 randPlus 0 0 0).pipelineHealth =
      (if cacheExT.sensors.getD [] = [] then 100
       else jsRound (100 * ((distinctTypes (cacheExT.sensors.getD [])).countP
           (fun t => decide (latestOK (cacheExT.sensors.getD []) t)) : ℚ) /
         ((distinctTypes (cacheExT.sensors.getD [])).length : ℚ))) := by
  have hdist : UniqueStamps (cacheExT.sensors.getD []) := by
    unfold UniqueStamps
    decide
  exact ⟨hdist, getDashboardSummary_pipelineHealth cacheExT 0 randPlus 0 0 0 hdist⟩

/-- **C10** (confirmed).  The three jittered summary figures stay within
their documented bounds for every random draw in `[0, 1)`. -/
theorem getDashboardSummary_random_bounds (cache : DataCache) (now : Int)
    (rand : SensorDraws) (r1 r2 r3 : ℚ)
    (h1 : 0 ≤ r1 ∧ r1 < 1) (h2 : 0 ≤ r2 ∧ r2 < 1) (h3 : 0 ≤ r3 ∧ r3 < 1) :
    (95 ≤ (getDashboardSummary cache now rand r1 r2 r3).dataFreshness ∧
      (getDashboardSummary cache now rand r1 r2 r3).dataFreshness ≤ 100) ∧
    (85 ≤ (getDashboardSummary cache now rand r1 r2 r3).modelAccuracy ∧
      (getDashboardSummary cache now rand r1 r2 r3).modelAccuracy ≤ 95) ∧
    (100 ≤ (getDashboardSummary cache now rand r1 r2 r3).systemLatency ∧
      (getDashboardSummary cache now rand r1 r2 r3).systemLatency ≤ 200) := by
  obtain ⟨h1a, h1b⟩ := h1
  obtain ⟨h2a, h2b⟩ := h2
  obtain ⟨h3a, h3b⟩ := h3
  simp only [getDashboardSummary]
  unfold jsRound
  refine ⟨⟨?_, ?_⟩, ⟨?_, ?_⟩, ⟨?_, ?_⟩⟩
  · have h := Int.floor_nonneg.2 (show (0:ℚ) ≤ r1 * 5 + 1/2 by linarith)
    linarith
  · have h := Int.floor_le_iff.2 (show r1 * 5 + 1/2 < ((5:Int):ℚ) + 1 by
      push_cast; linarith)
    linarith
  · have h := Int.floor_nonneg.2 (show (0:ℚ) ≤ r2 * 10 + 1/2 by linarith)
    linarith
  · have h := Int.floor_le_iff.2 (show r2 * 10 + 1/2 < ((10:Int):ℚ) + 1 by
      push_cast; linarith)
    linarith
  · have h := Int.floor_nonneg.2 (show (0:ℚ) ≤ r3 * 100 + 1/2 by linarith)
    linarith
  · have h := Int.floor_le_iff.2 (show r3 * 100 + 1/2 < ((100:Int):ℚ) + 1 by
      push_cast; linarith)
    linarith

/-- Witness for the **C10** theorem at draws `0`, `1/2`, `99/100`. -/
theorem getDashboardSummary_random_bounds_witness :
    ((0:ℚ) ≤ 0 ∧ (0:ℚ) < 1) ∧ ((0:ℚ) ≤ 1/2 ∧ (1/2:ℚ) < 1) ∧
    ((0:ℚ) ≤ 99/100 ∧ (99/100:ℚ) < 1) ∧
    ((95 ≤ (getDashboardSummary emptyCache 0 randPlus 0 (1/2) (99/100)).dataFreshness ∧
      (getDashboardSummary emptyCache 0 randPlus 0 (1/2) (99/100)).dataFreshness ≤ 100) ∧
    (85 ≤ (getDashboardSummary emptyCache 0 randPlus 0 (1/2) (99/100)).modelAccuracy ∧
      (getDashboardSummary emptyCache 0 randPlus 0 (1/2) (99/100)).modelAccuracy ≤ 95) ∧
    (100 ≤ (getDashboardSummary emptyCache 0 randPlus 0 (1/2) (99/100)).systemLatency ∧
      (getDashboardSummary emptyCache 0 randPlus 0 (1/2) (99/100)).systemLatency ≤ 200)) := by
  refine ⟨⟨le_refl 0, by norm_num⟩, ⟨by norm_num, by norm_num⟩,
    ⟨by norm_num, by norm_num⟩, ?_⟩
  exact getDashboardSummary_random_bounds emptyCache 0 randPlus 0 (1/2) (99/100)
    ⟨le_refl 0, by norm_num⟩ ⟨by norm_num, by norm_num⟩ ⟨by norm_num, by norm_num⟩

/-- The documented empty/zero defaults of every query operation on the
never-loaded cache. -/
def EmptyCacheDefaults : Prop :=
  (∀ limit : Int, getLatestCampaigns emptyCache limit = ([], emptyCache)) ∧
  (∀ cid : String, getCampaignMetrics emptyCache cid = []) ∧
  (∀ now : Int, getActiveCampaigns emptyCache now = []) ∧
  getBrandPerformance emptyCache = [] ∧
  (∀ rand : SensorDraws, getSensorStatus emptyCache rand = []) ∧
  getModelPerformance emptyCache = [] ∧
  (∀ now days : Int, getPerformanceTrends emptyCache now days = []) ∧
  (∀ now : Int, ∀ rand : SensorDraws, ∀ q1 q2 q3 : ℚ,
    (getDashboardSummary emptyCache now rand q1 q2 q3).totalCampaigns = 0 ∧
    (getDashboardSummary emptyCache now rand q1 q2 q3).activeCampaigns = 0 ∧
    (getDashboardSummary emptyCache now rand q1 q2 q3).avgROI = 0 ∧
    (getDashboardSummary emptyCache now rand q1 q2 q3).avgEngagement = 0 ∧
    (getDashboardSummary emptyCache now rand q1 q2 q3).totalRecords = 0 ∧
    (getDashboardSummary emptyCache now rand q1 q2 q3).pipelineHealth = 100)

/-- **C7** (confirmed).  When any of the parallel fetches rejects, `load()`
resolves to the `null` fallback sentinel and leaves the cache untouched, and
every query operation on the never-loaded cache returns its documented
empty/zero default (total functions in this model: no exception exists). -/
theorem loadRealDataset_fallback (prev : DataCache) (r : FetchResults)
    (hfail : r.campaigns = none ∨ r.metrics = none ∨ r.assets = none ∨
      r.sensors = none ∨ r.models = none ∨ r.summary = none) :
    (loadRealDataset prev r).1 = none ∧ (loadRealDataset prev r).2 = prev ∧
      EmptyCacheDefaults := by
  have hload : (loadRealDataset prev r).1 = none ∧
      (loadRealDataset prev r).2 = prev := by
    obtain ⟨rc, rm, ra, rs, rmo, rsum⟩ := r
    simp only at hfail
    rcases rc with _ | c <;> rcases rm with _ | m <;> rcases ra with _ | a <;>
      rcases rs with _ | s <;> rcases rmo with _ | mo <;> rcases rsum with _ | su <;>
      simp_all [loadRealDataset]
  refine ⟨hload.1, hload.2, ?_, ?_, ?_, rfl, ?_, rfl, ?_, ?_⟩
  · intro limit
    rfl
  · intro cid
    rfl
  · intro now
    rfl
  · intro rand
    rfl
  · intro now days
    rfl
  · intro now rand q1 q2 q3
    norm_num [getDashboardSummary, jsToFixed1Q, jsRound, jsSliceLast, sumBy,
      getSensorStatus, getActiveCampaigns, emptyCache]

/-- Witness for the **C7** theorem: the metrics fetch rejected. -/
theorem loadRealDataset_fallback_witness :
    failedFetch.metrics = none ∧
    (loadRealDataset cacheExA failedFetch).1 = none ∧
    (loadRealDataset cacheExA failedFetch).2 = cacheExA ∧
    EmptyCacheDefaults := by
  have h := loadRealDataset_fallback cacheExA failedFetch (Or.inr (Or.inl rfl))
  exact ⟨rfl, h.1, h.2.1, h.2.2⟩
